import Mathlib

/-!
Shallow embedding of the vote-queue core of `vue-voting-poc`
(`src/App.vue` and `src/db.js`).

The store (`db.votes`, a Dexie/IndexedDB table keyed by `id`) is modelled
as a `List Vote`.  The Dexie operations used by the app —
`add`, `update(id, fields)`, `delete(id)`, `where('status').equals(...)`
— become the list functions below.  `Math.random()` draws inside
`sendVote` are modelled by an explicit stream of `Outcome`s, and the
opaque signing primitive (`crypto.subtle.digest` inside `signVote`)
by a function parameter `sign : String → String`.
-/

namespace Voting

/-- The `status` field values that ever occur in the source:
`'queued'`, `'sending'`, `'failed'`. -/
inductive Status where
  | queued
  | sending
  | failed
deriving DecidableEq, Repr

/-- One record of the `votes` table, with the fields written by
`castVote` in `App.vue`: `id`, `idempotencyKey`, `status`, `retries`,
`signature`. -/
structure Vote where
  id : String
  idempotencyKey : String
  status : Status
  retries : Nat
  signature : String
deriving DecidableEq, Repr

/-- The votes table. -/
abbrev Store := List Vote

/-- `db.votes.update(id, { status })`: Dexie updates the record with the
given primary key, a no-op when the key is absent. -/
def setStatus (store : Store) (i : String) (st : Status) : Store :=
  store.map (fun w => if w.id = i then { w with status := st } else w)

/-- `db.votes.update(id, { status: 'failed', retries: r })`. -/
def setFailed (store : Store) (i : String) (r : Nat) : Store :=
  store.map (fun w =>
    if w.id = i then { w with status := Status.failed, retries := r } else w)

/-- `db.votes.delete(id)`: idempotent removal by primary key. -/
def deleteVote (store : Store) (i : String) : Store :=
  store.filter (fun w => decide (w.id ≠ i))

/-- Whether the table holds a record with primary key `i`. -/
def containsId (store : Store) (i : String) : Bool :=
  store.any (fun w => w.id = i)

/-- The record with primary key `i`, if any. -/
def findVote : Store → String → Option Vote
  | [], _ => none
  | w :: rest, i => if w.id = i then some w else findVote rest i

/-- `db.votes.where('status').equals('queued').toArray()`: the snapshot
of queued records taken at the start of `processQueue`. -/
def snapshot (store : Store) : List Vote :=
  store.filter (fun v => decide (v.status = Status.queued))

/-- The result of the simulated network send, i.e. the
`Math.random() > 0.1` draw in `sendVote`. -/
inductive Outcome where
  | success
  | transientFailure
deriving DecidableEq, Repr

/-- `sendVote` from `App.vue`: when offline it returns `false` before
touching the network; online, the simulated backend either succeeds
(returns `true`) or throws `Error('Network error')` (modelled as
`Except.error`). -/
def sendVote (isOnline : Bool) (o : Outcome) : Except Unit Bool :=
  if isOnline = false then Except.ok false
  else
    match o with
    | Outcome.success => Except.ok true
    | Outcome.transientFailure => Except.error ()

/-- One iteration of the `for (const vote of queued)` loop in
`processQueue`: mark the record `sending`, call `sendVote`, then either
delete it (returned `true`), leave it (returned `false`, offline case),
or mark it `failed` with `vote.retries + 1` (threw).  The second
component logs the transport invocations that actually reached the
simulated backend, as `(id, reported success?)`. -/
def processVote (isOnline : Bool) (o : Outcome) (store : Store) (v : Vote) :
    Store × List (String × Bool) :=
  let s1 := setStatus store v.id Status.sending
  match sendVote isOnline o with
  | Except.ok true => (deleteVote s1 v.id, [(v.id, true)])
  | Except.ok false => (s1, [])
  | Except.error _ => (setFailed s1 v.id (v.retries + 1), [(v.id, false)])

/-- The loop of `processQueue` over the queued snapshot, consuming one
random draw per record. -/
def sweepGo (isOnline : Bool) (outs : Nat → Outcome) :
    List Vote → Store → Store × List (String × Bool)
  | [], store => (store, [])
  | v :: rest, store =>
      let r := processVote isOnline (outs 0) store v
      let r2 := sweepGo isOnline (fun n => outs (n + 1)) rest r.1
      (r2.1, r.2 ++ r2.2)

/-- `processQueue` from `App.vue`: snapshot the queued records, then
process each in order. -/
def processQueue (isOnline : Bool) (outs : Nat → Outcome) (store : Store) :
    Store × List (String × Bool) :=
  sweepGo isOnline outs (snapshot store) store

/-- `castVote` from `App.vue`, with the generated `id` and
`idempotencyKey` passed in and the signing primitive abstracted as
`sign`: `signature = sign(id + idempotencyKey)` and the new record is
added with `status: 'queued'`, `retries: 0`.  Dexie's `add` throws on a
duplicate primary key, in which case nothing is stored. -/
def castVote (sign : String → String) (i idk : String) (store : Store) : Store :=
  if containsId store i then store
  else store ++ [{ id := i, idempotencyKey := idk, status := Status.queued,
                   retries := 0, signature := sign (i ++ idk) }]

/-- Whole-app state: the persisted table plus the `isOnline` ref. -/
structure Sys where
  store : Store
  isOnline : Bool
deriving Repr

/-- The operations the app can perform on its state: `castVote`,
`toggleOnline`, and a timer-driven `processQueue` sweep (whose random
draws are the `outs` stream). -/
inductive Op where
  | cast (i idk : String)
  | toggle
  | sweep (outs : Nat → Outcome)

/-- One operation applied to the app state, together with the transport
invocations it performed. -/
def step (sign : String → String) (s : Sys) (op : Op) :
    Sys × List (String × Bool) :=
  match op with
  | Op.cast i idk => ({ s with store := castVote sign i idk s.store }, [])
  | Op.toggle => ({ s with isOnline := !s.isOnline }, [])
  | Op.sweep outs =>
      let r := processQueue s.isOnline outs s.store
      ({ s with store := r.1 }, r.2)

/-- Run a sequence of operations. -/
def run (sign : String → String) (s : Sys) : List Op → Sys
  | [] => s
  | op :: ops => run sign (step sign s op).1 ops

/-- All transport invocations performed while running a sequence of
operations. -/
def runLog (sign : String → String) (s : Sys) : List Op → List (String × Bool)
  | [] => []
  | op :: ops =>
      (step sign s op).2 ++ runLog sign (step sign s op).1 ops

/-- Repeated sweeps (`setInterval(processQueue, 3000)`), with an
independent stream of random draws per sweep. -/
def runSweeps (isOnline : Bool) (outs : Nat → Nat → Outcome) :
    Nat → Store → Store
  | 0, store => store
  | k + 1, store =>
      runSweeps isOnline (fun n => outs (n + 1)) k
        (processQueue isOnline (outs 0) store).1

/-- The primary keys of a table, used to state uniqueness. -/
def storeIds (store : Store) : List String :=
  store.map (fun v => v.id)

/-- Derived description of what one sweep does to a record it found
queued, as a function of the draw for that record; proved equal to the
effect of `processVote`/`processQueue` in the theorems below. -/
def afterSweep (isOnline : Bool) (o : Outcome) (v : Vote) : Option Vote :=
  if isOnline then
    match o with
    | Outcome.success => none
    | Outcome.transientFailure =>
        some { v with status := Status.failed, retries := v.retries + 1 }
  else some { v with status := Status.sending }

/-- Derived description of the transport-invocation log of an online
sweep over a snapshot; proved equal to the log of `sweepGo` below. -/
def logOf (outs : Nat → Outcome) : List Vote → List (String × Bool)
  | [] => []
  | v :: rest =>
      (v.id, decide (outs 0 = Outcome.success)) :: logOf (fun n => outs (n + 1)) rest

/-- Position of the record with primary key `i` in a snapshot list;
determines which random draw its attempt consumes. -/
def idxOf (i : String) (l : List Vote) : Nat :=
  l.findIdx (fun v => v.id = i)

/-- A freshly cast record, used as concrete input in several theorems. -/
def voteQ : Vote :=
  { id := "v1", idempotencyKey := "k1", status := Status.queued,
    retries := 0, signature := "sig1" }

/-- A record whose single attempt failed, with a given retry count. -/
def failedVote (k : Nat) : Vote :=
  { id := "v1", idempotencyKey := "k1", status := Status.failed,
    retries := k, signature := "sig1" }

/-- A transport stub that fails transiently on the first sweep and would
succeed on every attempt from the second sweep on (the spec's
eventual-delivery stub with N = 2). -/
def c2outs : Nat → Nat → Outcome := fun sweepIdx _ =>
  if sweepIdx = 0 then Outcome.transientFailure else Outcome.success

end Voting

namespace Voting

theorem findVote_map (f : Vote → Vote) (hf : ∀ w, (f w).id = w.id)
    (store : Store) (i : String) :
    findVote (store.map f) i = (findVote store i).map f := by
  induction store with
  | nil => rfl
  | cons w rest ih =>
    by_cases hw : w.id = i
    · simp [findVote, List.map_cons, hf, hw]
    · simp [findVote, List.map_cons, hf, hw, ih]

theorem mem_of_findVote {store : Store} {i : String} {v : Vote}
    (h : findVote store i = some v) : v ∈ store ∧ v.id = i := by
  induction store with
  | nil => simp [findVote] at h
  | cons w rest ih =>
    by_cases hw : w.id = i
    · simp [findVote, hw] at h
      subst h
      exact ⟨List.mem_cons_self _ _, hw⟩
    · simp [findVote, hw] at h
      exact ⟨List.mem_cons_of_mem _ (ih h).1, (ih h).2⟩

theorem findVote_setStatus_self {store : Store} {i : String} {v : Vote}
    (st : Status) (h : findVote store i = some v) :
    findVote (setStatus store i st) i = some { v with status := st } := by
  have hid : v.id = i := (mem_of_findVote h).2
  rw [setStatus, findVote_map _ (fun w => by split <;> rfl), h]
  simp [Option.map, hid]

theorem findVote_setStatus_ne {store : Store} {i j : String}
    (st : Status) (h : i ≠ j) :
    findVote (setStatus store j st) i = findVote store i := by
  rw [setStatus, findVote_map _ (fun w => by split <;> rfl)]
  cases hfv : findVote store i with
  | none => rfl
  | some v =>
    have hid : v.id = i := (mem_of_findVote hfv).2
    have : v.id ≠ j := by rw [hid]; exact h
    simp [Option.map, this]

theorem findVote_setFailed_self {store : Store} {i : String} {v : Vote}
    (r : Nat) (h : findVote store i = some v) :
    findVote (setFailed store i r) i
      = some { v with status := Status.failed, retries := r } := by
  have hid : v.id = i := (mem_of_findVote h).2
  rw [setFailed, findVote_map _ (fun w => by split <;> rfl), h]
  simp [Option.map, hid]

theorem findVote_setFailed_ne {store : Store} {i j : String}
    (r : Nat) (h : i ≠ j) :
    findVote (setFailed store j r) i = findVote store i := by
  rw [setFailed, findVote_map _ (fun w => by split <;> rfl)]
  cases hfv : findVote store i with
  | none => rfl
  | some v =>
    have hid : v.id = i := (mem_of_findVote hfv).2
    have : v.id ≠ j := by rw [hid]; exact h
    simp [Option.map, this]

theorem findVote_deleteVote_self (store : Store) (i : String) :
    findVote (deleteVote store i) i = none := by
  induction store with
  | nil => rfl
  | cons w rest ih =>
    by_cases hw : w.id = i
    · simp [deleteVote, List.filter_cons, hw] at ih ⊢
      exact ih
    · simp [deleteVote, List.filter_cons, hw, findVote] at ih ⊢
      exact ih

theorem findVote_deleteVote_ne {store : Store} {i j : String} (h : i ≠ j) :
    findVote (deleteVote store j) i = findVote store i := by
  induction store with
  | nil => rfl
  | cons w rest ih =>
    have hji : ¬ (j = i) := fun e => h e.symm
    by_cases hw : w.id = j
    · simp [deleteVote, List.filter_cons, hw, findVote, hji] at ih ⊢
      exact ih
    · by_cases hi : w.id = i
      · simp [deleteVote, List.filter_cons, hw, findVote, hi, h, hji]
      · simp [deleteVote, List.filter_cons, hw, findVote, hi] at ih ⊢
        exact ih

theorem containsId_eq_isSome (store : Store) (i : String) :
    containsId store i = (findVote store i).isSome := by
  induction store with
  | nil => rfl
  | cons w rest ih =>
    by_cases hw : w.id = i
    · simp [containsId, findVote, hw]
    · simp [containsId, findVote, hw] at ih ⊢
      exact ih

theorem mem_storeIds_iff_isSome (store : Store) (i : String) :
    i ∈ storeIds store ↔ (findVote store i).isSome := by
  induction store with
  | nil => simp [storeIds, findVote]
  | cons w rest ih =>
    by_cases hw : w.id = i
    · simp [storeIds, findVote, hw]
    · have hne : i ≠ w.id := fun e => hw e.symm
      simp [storeIds, findVote, hw, hne] at ih ⊢
      exact ih

theorem findVote_mem_of_nodup {store : Store} {v : Vote}
    (hnd : (storeIds store).Nodup) (hv : v ∈ store) :
    findVote store v.id = some v := by
  induction store with
  | nil => simp at hv
  | cons w rest ih =>
    simp [storeIds] at hnd
    rcases List.mem_cons.mp hv with h | h
    · subst h
      simp [findVote]
    · have hne : w.id ≠ v.id := fun e => hnd.1 v h e.symm
      simp [findVote, hne]
      exact ih hnd.2 h

theorem storeIds_setStatus (store : Store) (j : String) (st : Status) :
    storeIds (setStatus store j st) = storeIds store := by
  induction store with
  | nil => rfl
  | cons w rest ih =>
    by_cases hw : w.id = j <;>
      simp [storeIds, setStatus, hw] at ih ⊢ <;> exact ih

theorem storeIds_setFailed (store : Store) (j : String) (r : Nat) :
    storeIds (setFailed store j r) = storeIds store := by
  induction store with
  | nil => rfl
  | cons w rest ih =>
    by_cases hw : w.id = j <;>
      simp [storeIds, setFailed, hw] at ih ⊢ <;> exact ih

theorem storeIds_deleteVote_sublist (store : Store) (j : String) :
    List.Sublist (storeIds (deleteVote store j)) (storeIds store) := by
  simp only [storeIds, deleteVote]
  exact (List.filter_sublist store).map fun v => v.id

theorem storeIds_processVote_sublist (isOnline : Bool) (o : Outcome)
    (store : Store) (v : Vote) :
    List.Sublist (storeIds (processVote isOnline o store v).1) (storeIds store) := by
  rw [processVote]
  cases sendVote isOnline o with
  | error e =>
    simp only
    rw [storeIds_setFailed, storeIds_setStatus]
  | ok b =>
    cases b with
    | true =>
      simp only
      have h1 := storeIds_deleteVote_sublist (setStatus store v.id Status.sending) v.id
      rwa [storeIds_setStatus] at h1
    | false =>
      simp only
      rw [storeIds_setStatus]

theorem storeIds_sweepGo_sublist (isOnline : Bool) (outs : Nat → Outcome)
    (pending : List Vote) (store : Store) :
    List.Sublist (storeIds (sweepGo isOnline outs pending store).1) (storeIds store) := by
  induction pending generalizing outs store with
  | nil => exact List.Sublist.refl _
  | cons v rest ih =>
    exact (ih _ _).trans (storeIds_processVote_sublist isOnline (outs 0) store v)

theorem nodup_processQueue {store : Store} (isOnline : Bool) (outs : Nat → Outcome)
    (hnd : (storeIds store).Nodup) :
    (storeIds (processQueue isOnline outs store).1).Nodup :=
  (storeIds_sweepGo_sublist isOnline outs (snapshot store) store).nodup hnd

theorem nodup_castVote {store : Store} (sign : String → String) (i idk : String)
    (hnd : (storeIds store).Nodup) :
    (storeIds (castVote sign i idk store)).Nodup := by
  rw [castVote]
  by_cases hc : containsId store i
  · simpa [hc] using hnd
  · have hmem : i ∉ storeIds store := by
      intro hm
      rw [mem_storeIds_iff_isSome] at hm
      rw [containsId_eq_isSome] at hc
      exact hc hm
    simp only [hc, if_neg, Bool.false_eq_true, not_false_eq_true, if_false]
    rw [storeIds, List.map_append]
    exact List.Nodup.append hnd (List.nodup_singleton _)
      (by simpa [storeIds, List.disjoint_singleton] using hmem)

theorem nodup_step {sign : String → String} {s : Sys} (op : Op)
    (hnd : (storeIds s.store).Nodup) :
    (storeIds (step sign s op).1.store).Nodup := by
  cases op with
  | cast i idk => exact nodup_castVote sign i idk hnd
  | toggle => exact hnd
  | sweep outs => exact nodup_processQueue s.isOnline outs hnd

theorem nodup_run {sign : String → String} {s : Sys} (ops : List Op)
    (hnd : (storeIds s.store).Nodup) :
    (storeIds (run sign s ops).store).Nodup := by
  induction ops generalizing s with
  | nil => exact hnd
  | cons op ops ih => exact ih (nodup_step op hnd)

theorem processVote_find_self {store : Store} {v : Vote}
    (isOnline : Bool) (o : Outcome)
    (hv : findVote store v.id = some v) :
    findVote (processVote isOnline o store v).1 v.id = afterSweep isOnline o v := by
  cases isOnline with
  | false =>
    show findVote (setStatus store v.id Status.sending) v.id
        = some { v with status := Status.sending }
    exact findVote_setStatus_self Status.sending hv
  | true =>
    cases o with
    | success =>
      show findVote (deleteVote (setStatus store v.id Status.sending) v.id) v.id
          = none
      exact findVote_deleteVote_self _ v.id
    | transientFailure =>
      show findVote
          (setFailed (setStatus store v.id Status.sending) v.id (v.retries + 1)) v.id
          = some { v with status := Status.failed, retries := v.retries + 1 }
      have h1 := findVote_setStatus_self Status.sending hv
      have h2 := findVote_setFailed_self (v.retries + 1) h1
      exact h2

theorem processVote_find_ne {store : Store} {v : Vote} {i : String}
    (isOnline : Bool) (o : Outcome) (h : i ≠ v.id) :
    findVote (processVote isOnline o store v).1 i = findVote store i := by
  cases isOnline with
  | false =>
    show findVote (setStatus store v.id Status.sending) i = findVote store i
    exact findVote_setStatus_ne _ h
  | true =>
    cases o with
    | success =>
      show findVote (deleteVote (setStatus store v.id Status.sending) v.id) i
          = findVote store i
      rw [findVote_deleteVote_ne h, findVote_setStatus_ne _ h]
    | transientFailure =>
      show findVote
          (setFailed (setStatus store v.id Status.sending) v.id (v.retries + 1)) i
          = findVote store i
      rw [findVote_setFailed_ne _ h, findVote_setStatus_ne _ h]

theorem sweepGo_find_notMem (isOnline : Bool) :
    ∀ (pending : List Vote) (outs : Nat → Outcome) (store : Store) (i : String),
      (∀ v ∈ pending, v.id ≠ i) →
      findVote (sweepGo isOnline outs pending store).1 i = findVote store i := by
  intro pending
  induction pending with
  | nil => intro outs store i _; rfl
  | cons v rest ih =>
    intro outs store i h
    have hv : v.id ≠ i := h v (List.mem_cons_self _ _)
    show findVote (sweepGo isOnline (fun n => outs (n + 1)) rest
        (processVote isOnline (outs 0) store v).1).1 i = findVote store i
    rw [ih (fun n => outs (n + 1)) _ i (fun w hw => h w (List.mem_cons_of_mem _ hw))]
    exact processVote_find_ne isOnline (outs 0) (fun e => hv e.symm)

theorem sweepGo_find_mem (isOnline : Bool) :
    ∀ (pending : List Vote) (outs : Nat → Outcome) (store : Store) (v : Vote),
      (pending.map (fun w => w.id)).Nodup →
      (∀ w ∈ pending, findVote store w.id = some w) →
      v ∈ pending →
      findVote (sweepGo isOnline outs pending store).1 v.id
        = afterSweep isOnline (outs (idxOf v.id pending)) v := by
  intro pending
  induction pending with
  | nil => intro _ _ _ _ _ hv; simp at hv
  | cons u rest ih =>
    intro outs store v hnd hcons hv
    rw [List.map_cons] at hnd
    have hnd1 := (List.nodup_cons.mp hnd).1
    have hnd2 := (List.nodup_cons.mp hnd).2
    rcases List.mem_cons.mp hv with heq | hvrest
    · subst heq
      have hu : findVote store v.id = some v := hcons v (List.mem_cons_self _ _)
      have hidx : idxOf v.id (v :: rest) = 0 := by
        simp [idxOf, List.findIdx_cons]
      rw [hidx]
      show findVote (sweepGo isOnline (fun n => outs (n + 1)) rest
          (processVote isOnline (outs 0) store v).1).1 v.id
          = afterSweep isOnline (outs 0) v
      have hrest : ∀ w ∈ rest, w.id ≠ v.id := by
        intro w hw e
        exact hnd1 (List.mem_map.mpr ⟨w, hw, e⟩)
      rw [sweepGo_find_notMem isOnline rest (fun n => outs (n + 1)) _ v.id hrest]
      exact processVote_find_self isOnline (outs 0) hu
    · have hne : ¬ (u.id = v.id) := by
        intro e
        exact hnd1 (List.mem_map.mpr ⟨v, hvrest, e.symm⟩)
      have hidx : idxOf v.id (u :: rest) = idxOf v.id rest + 1 := by
        simp [idxOf, List.findIdx_cons, hne]
      rw [hidx]
      show findVote (sweepGo isOnline (fun n => outs (n + 1)) rest
          (processVote isOnline (outs 0) store u).1).1 v.id
          = afterSweep isOnline (outs (idxOf v.id rest + 1)) v
      have hcons2 : ∀ w ∈ rest, findVote (processVote isOnline (outs 0) store u).1 w.id
          = some w := by
        intro w hw
        have hwu : w.id ≠ u.id := by
          intro e
          exact hnd1 (List.mem_map.mpr ⟨w, hw, e⟩)
        rw [processVote_find_ne isOnline (outs 0) hwu]
        exact hcons w (List.mem_cons_of_mem _ hw)
      exact ih (fun n => outs (n + 1)) _ v hnd2 hcons2 hvrest

theorem sweepGo_log_offline :
    ∀ (pending : List Vote) (outs : Nat → Outcome) (store : Store),
      (sweepGo false outs pending store).2 = [] := by
  intro pending
  induction pending with
  | nil => intro _ _; rfl
  | cons v rest ih =>
    intro outs store
    show (processVote false (outs 0) store v).2
        ++ (sweepGo false (fun n => outs (n + 1)) rest
             (processVote false (outs 0) store v).1).2 = []
    rw [ih]
    rfl

theorem sweepGo_log_online :
    ∀ (pending : List Vote) (outs : Nat → Outcome) (store : Store),
      (sweepGo true outs pending store).2 = logOf outs pending := by
  intro pending
  induction pending with
  | nil => intro _ _; rfl
  | cons v rest ih =>
    intro outs store
    show (processVote true (outs 0) store v).2
        ++ (sweepGo true (fun n => outs (n + 1)) rest
             (processVote true (outs 0) store v).1).2
      = (v.id, decide (outs 0 = Outcome.success)) :: logOf (fun n => outs (n + 1)) rest
    rw [ih]
    cases h : outs 0 with
    | success => simp [processVote, sendVote]
    | transientFailure => simp [processVote, sendVote]

theorem logOf_map_fst :
    ∀ (pending : List Vote) (outs : Nat → Outcome),
      (logOf outs pending).map Prod.fst = pending.map (fun v => v.id) := by
  intro pending
  induction pending with
  | nil => intro _; rfl
  | cons v rest ih => intro outs; simp [logOf, ih]

theorem mem_logOf :
    ∀ (pending : List Vote) (outs : Nat → Outcome) (i : String) (b : Bool),
      (pending.map (fun v => v.id)).Nodup →
      ((i, b) ∈ logOf outs pending ↔
        ∃ v ∈ pending, v.id = i
          ∧ b = decide (outs (idxOf i pending) = Outcome.success)) := by
  intro pending
  induction pending with
  | nil => intro outs i b _; simp [logOf]
  | cons u rest ih =>
    intro outs i b hnd
    rw [List.map_cons] at hnd
    have hnd1 := (List.nodup_cons.mp hnd).1
    have hnd2 := (List.nodup_cons.mp hnd).2
    by_cases hui : u.id = i
    · have hidx : idxOf i (u :: rest) = 0 := by
        simp [idxOf, List.findIdx_cons, hui]
      have hnotrest : ∀ v ∈ rest, v.id ≠ i := by
        intro v hv e
        exact hnd1 (List.mem_map.mpr ⟨v, hv, e.trans hui.symm⟩)
      constructor
      · intro hmem
        rcases List.mem_cons.mp hmem with heq | hrest
        · refine ⟨u, List.mem_cons_self _ _, hui, ?_⟩
          rw [hidx]
          have := congrArg Prod.snd heq
          simpa using this
        · exfalso
          have : i ∈ (logOf (fun n => outs (n + 1)) rest).map Prod.fst :=
            List.mem_map.mpr ⟨(i, b), hrest, rfl⟩
          rw [logOf_map_fst] at this
          rcases List.mem_map.mp this with ⟨w, hw, he⟩
          exact hnotrest w hw he
      · rintro ⟨v, hv, hvi, hb⟩
        rw [hidx] at hb
        rcases List.mem_cons.mp hv with heq | hrest
        · subst heq
          subst hb
          simp [logOf, hui]
        · exact absurd hvi (hnotrest v hrest)
    · have hidx : idxOf i (u :: rest) = idxOf i rest + 1 := by
        simp [idxOf, List.findIdx_cons, hui]
      rw [hidx]
      constructor
      · intro hmem
        rcases List.mem_cons.mp hmem with heq | hrest
        · exfalso
          exact hui (congrArg Prod.fst heq).symm
        · rcases (ih (fun n => outs (n + 1)) i b hnd2).mp hrest with ⟨v, hv, hvi, hb⟩
          exact ⟨v, List.mem_cons_of_mem _ hv, hvi, hb⟩
      · rintro ⟨v, hv, hvi, hb⟩
        rcases List.mem_cons.mp hv with heq | hrest
        · exact absurd (heq ▸ hvi) hui
        · exact List.mem_cons_of_mem _
            ((ih (fun n => outs (n + 1)) i b hnd2).mpr ⟨v, hrest, hvi, hb⟩)

theorem nodup_snapshot_ids {store : Store} (hnd : (storeIds store).Nodup) :
    ((snapshot store).map (fun v => v.id)).Nodup := by
  rw [storeIds] at hnd
  exact ((List.filter_sublist store).map (fun v => v.id)).nodup hnd

theorem snapshot_consistent {store : Store} (hnd : (storeIds store).Nodup) :
    ∀ w ∈ snapshot store, findVote store w.id = some w := fun _ hw =>
  findVote_mem_of_nodup hnd (List.mem_of_mem_filter hw)

theorem mem_snapshot {store : Store} {v : Vote} :
    v ∈ snapshot store ↔ v ∈ store ∧ v.status = Status.queued := by
  simp [snapshot, List.mem_filter]

theorem processQueue_find (isOnline : Bool) (outs : Nat → Outcome) (store : Store)
    (hnd : (storeIds store).Nodup) (i : String) :
    findVote (processQueue isOnline outs store).1 i =
      match findVote store i with
      | none => none
      | some v =>
          if v.status = Status.queued
          then afterSweep isOnline (outs (idxOf i (snapshot store))) v
          else some v := by
  cases hfv : findVote store i with
  | none =>
    have h : ∀ v ∈ snapshot store, v.id ≠ i := by
      intro v hv e
      have hvs : v ∈ store := List.mem_of_mem_filter hv
      have : i ∈ storeIds store := List.mem_map.mpr ⟨v, hvs, e⟩
      rw [mem_storeIds_iff_isSome, hfv] at this
      simp at this
    rw [processQueue, sweepGo_find_notMem isOnline _ outs store i h, hfv]
  | some v =>
    have hvs := mem_of_findVote hfv
    by_cases hq : v.status = Status.queued
    · have hvsnap : v ∈ snapshot store := mem_snapshot.mpr ⟨hvs.1, hq⟩
      have hchar := sweepGo_find_mem isOnline (snapshot store) outs store v
        (nodup_snapshot_ids hnd) (snapshot_consistent hnd) hvsnap
      rw [processQueue, ← hvs.2, hchar, hvs.2]
      simp [hq]
    · have h : ∀ w ∈ snapshot store, w.id ≠ i := by
        intro w hw e
        have hws := mem_snapshot.mp hw
        have : findVote store i = some w := e ▸ findVote_mem_of_nodup hnd hws.1
        rw [hfv] at this
        injection this with hwv
        exact hq (hwv ▸ hws.2)
      rw [processQueue, sweepGo_find_notMem isOnline _ outs store i h, hfv]
      simp [hq]

theorem processQueue_log (isOnline : Bool) (outs : Nat → Outcome) (store : Store) :
    (processQueue isOnline outs store).2
      = if isOnline then logOf outs (snapshot store) else [] := by
  cases isOnline with
  | false => exact sweepGo_log_offline (snapshot store) outs store
  | true => exact sweepGo_log_online (snapshot store) outs store

theorem processQueue_no_queued {store : Store} (isOnline : Bool)
    (outs : Nat → Outcome) (h : snapshot store = []) :
    processQueue isOnline outs store = (store, []) := by
  rw [processQueue, h]
  rfl

theorem runSweeps_no_queued :
    ∀ (j : Nat) (isOnline : Bool) (outs : Nat → Nat → Outcome) (store : Store),
      snapshot store = [] →
      runSweeps isOnline outs j store = store := by
  intro j
  induction j with
  | zero => intro _ _ _ _; rfl
  | succ k ih =>
    intro isOnline outs store h
    show runSweeps isOnline (fun n => outs (n + 1)) k
        (processQueue isOnline (outs 0) store).1 = store
    rw [processQueue_no_queued isOnline (outs 0) h]
    exact ih isOnline (fun n => outs (n + 1)) store h

theorem findVote_append_of_isSome {store : Store} {i : String} (l : Store)
    (h : (findVote store i).isSome) :
    findVote (store ++ l) i = findVote store i := by
  induction store with
  | nil => simp [findVote] at h
  | cons w rest ih =>
    by_cases hw : w.id = i
    · simp [findVote, hw]
    · simp [findVote, hw] at h ⊢
      exact ih h

theorem findVote_castVote_present {store : Store} {i : String}
    (sign : String → String) (j idk : String)
    (h : (findVote store i).isSome) :
    findVote (castVote sign j idk store) i = findVote store i := by
  rw [castVote]
  by_cases hc : containsId store j
  · simp [hc]
  · simp only [hc, Bool.false_eq_true, if_false]
    exact findVote_append_of_isSome _ h

theorem afterSweep_retries {isOnline : Bool} {o : Outcome} {v v2 : Vote}
    (h : afterSweep isOnline o v = some v2) : v.retries ≤ v2.retries := by
  cases isOnline with
  | false =>
    simp [afterSweep] at h
    subst h
    simp
  | true =>
    cases o with
    | success => simp [afterSweep] at h
    | transientFailure =>
      simp [afterSweep] at h
      subst h
      simp

theorem afterSweep_eq_none_iff {isOnline : Bool} {o : Outcome} {v : Vote} :
    afterSweep isOnline o v = none ↔ isOnline = true ∧ o = Outcome.success := by
  cases isOnline <;> cases o <;> simp [afterSweep]

theorem step_retries_mono {sign : String → String} {s : Sys} {i : String}
    {v v2 : Vote} (op : Op)
    (hnd : (storeIds s.store).Nodup)
    (hv : findVote s.store i = some v)
    (hv2 : findVote (step sign s op).1.store i = some v2) :
    v.retries ≤ v2.retries := by
  cases op with
  | cast j idk =>
    have he : findVote (castVote sign j idk s.store) i = findVote s.store i :=
      findVote_castVote_present sign j idk (by rw [hv]; rfl)
    have : findVote (step sign s (Op.cast j idk)).1.store i = some v := by
      show findVote (castVote sign j idk s.store) i = some v
      rw [he, hv]
    rw [this] at hv2
    injection hv2 with h
    rw [h]
  | toggle =>
    have : findVote (step sign s Op.toggle).1.store i = some v := hv
    rw [this] at hv2
    injection hv2 with h
    rw [h]
  | sweep outs =>
    have hchar := processQueue_find s.isOnline outs s.store hnd i
    have hv2a : findVote (processQueue s.isOnline outs s.store).1 i = some v2 := hv2
    rw [hchar, hv] at hv2a
    simp only at hv2a
    by_cases hq : v.status = Status.queued
    · rw [if_pos hq] at hv2a
      exact afterSweep_retries hv2a
    · rw [if_neg hq] at hv2a
      injection hv2a with h
      rw [h]

theorem step_sending_frame {sign : String → String} {s : Sys} {i : String}
    {w : Vote} (op : Op)
    (hnd : (storeIds s.store).Nodup)
    (hw : findVote s.store i = some w)
    (hs : w.status = Status.sending) :
    findVote (step sign s op).1.store i = some w
      ∧ ∀ p ∈ (step sign s op).2, p.1 ≠ i := by
  have hq : ¬ (w.status = Status.queued) := by rw [hs]; simp
  cases op with
  | cast j idk =>
    refine ⟨?_, ?_⟩
    · show findVote (castVote sign j idk s.store) i = some w
      rw [findVote_castVote_present sign j idk (by rw [hw]; rfl)]
      exact hw
    · intro p hp
      simp [step] at hp
  | toggle =>
    exact ⟨hw, by intro p hp; simp [step] at hp⟩
  | sweep outs =>
    refine ⟨?_, ?_⟩
    · have hchar := processQueue_find s.isOnline outs s.store hnd i
      show findVote (processQueue s.isOnline outs s.store).1 i = some w
      rw [hchar, hw]
      simp [hq]
    · intro p hp
      have hp2 : p ∈ (processQueue s.isOnline outs s.store).2 := hp
      rw [processQueue_log] at hp2
      cases hon : s.isOnline with
      | false => rw [hon] at hp2; simp at hp2
      | true =>
        rw [hon] at hp2
        simp only [if_pos rfl] at hp2
        intro he
        have : p.1 ∈ (logOf outs (snapshot s.store)).map Prod.fst :=
          List.mem_map.mpr ⟨p, hp2, rfl⟩
        rw [logOf_map_fst] at this
        rcases List.mem_map.mp this with ⟨u, hu, hui⟩
        have hus := mem_snapshot.mp hu
        have : findVote s.store i = some u := by
          rw [← (hui.trans he)]
          exact findVote_mem_of_nodup hnd hus.1
        rw [hw] at this
        injection this with huw
        exact hq (huw ▸ hus.2)

theorem sending_absorbing {sign : String → String} {i : String} {w : Vote} :
    ∀ (ops : List Op) (s : Sys),
      (storeIds s.store).Nodup →
      findVote s.store i = some w →
      w.status = Status.sending →
      findVote (run sign s ops).store i = some w
        ∧ ∀ p ∈ runLog sign s ops, p.1 ≠ i := by
  intro ops
  induction ops with
  | nil =>
    intro s _ hw _
    exact ⟨hw, by intro p hp; simp [runLog] at hp⟩
  | cons op ops ih =>
    intro s hnd hw hs
    have hstep := @step_sending_frame sign s i w op hnd hw hs
    have hnd1 := @nodup_step sign s op hnd
    have hrest := ih (step sign s op).1 hnd1 hstep.1 hs
    refine ⟨hrest.1, ?_⟩
    intro p hp
    rw [runLog] at hp
    rcases List.mem_append.mp hp with h | h
    · exact hstep.2 p h
    · exact hrest.2 p h

/-- Claim C1: the claim says a sweep selects records with status `Queued`
or `Failed` (backoff permitting) and attempts them.  The code's
`processQueue` queries only `status === 'queued'`: at the failing input —
a store holding one `failed` record with any retry count, online, transport
ready to succeed — the sweep selects nothing, invokes no transport, and
leaves the store unchanged, so `Failed` records are never retried. -/
theorem failed_records_never_swept :
    ∀ (k : Nat) (isOnline : Bool) (outs : Nat → Outcome),
      processQueue isOnline outs [failedVote k] = ([failedVote k], []) := by
  intro k isOnline outs
  exact processQueue_no_queued isOnline outs rfl

/-- Claim C2: with the transport stub that fails transiently on the first
attempt and would succeed from the second on (N = 2), the claim says the
record is removed within 2 eligible sweeps; the code leaves the record in
the store forever — after the first sweep it is `failed` with
`retries = 1`, and every later sweep ignores it. -/
theorem retry_after_first_failure_never_delivered :
    ∀ k : Nat, runSweeps true c2outs (k + 1) [voteQ] = [failedVote 1] := by
  intro k
  show runSweeps true (fun n => c2outs (n + 1)) k
      (processQueue true (c2outs 0) [voteQ]).1 = [failedVote 1]
  have h1 : (processQueue true (c2outs 0) [voteQ]).1 = [failedVote 1] := by decide
  rw [h1]
  exact runSweeps_no_queued k true _ _ rfl

/-- Claim C3: the claim says an offline sweep leaves each eligible record
untouched in its current status.  The code does suppress the transport
call (empty invocation log) and leaves `retries` unchanged, but it first
persists `status: 'sending'`, so a record that was `queued` before the
offline sweep is `sending` — not `queued` — after it. -/
theorem offline_sweep_changes_status_to_sending :
    processQueue false (fun _ => Outcome.success) [voteQ]
        = ([{ voteQ with status := Status.sending }], [])
      ∧ ({ voteQ with status := Status.sending }).status ≠ voteQ.status
      ∧ ({ voteQ with status := Status.sending }).retries = voteQ.retries := by
  refine ⟨by decide, by decide, rfl⟩

/-- Claim C6: the claim says the next-eligible attempt time after a
failure is `baseDelay * 2^k` with jitter.  The code computes no
next-eligible time at all: a `failed` record with `retryCount = k` is
ineligible in every one of any number `j` of later sweeps, for every `k`
and every outcome stream — there is no backoff quantity in the program. -/
theorem no_backoff_time_computed :
    ∀ (k j : Nat) (outs : Nat → Nat → Outcome),
      runSweeps true outs j [failedVote k] = [failedVote k] := by
  intro k j outs
  exact runSweeps_no_queued j true outs _ rfl

/-- Claim C5: when the attempt for a selected record draws
`TransientFailure`, the sweep stores the record with status `Failed` and
`retries` exactly one more than its snapshot value, and the record
remains in the store; the invocation is logged as a failure. -/
theorem transient_failure_increments_and_persists (outs : Nat → Outcome)
    (store : Store) (i : String) (v : Vote)
    (hnd : (storeIds store).Nodup)
    (hv : findVote store i = some v)
    (hq : v.status = Status.queued)
    (ho : outs (idxOf i (snapshot store)) = Outcome.transientFailure) :
    findVote (processQueue true outs store).1 i
        = some { v with status := Status.failed, retries := v.retries + 1 }
      ∧ (i, false) ∈ (processQueue true outs store).2 := by
  have hchar := processQueue_find true outs store hnd i
  constructor
  · rw [hchar, hv]
    simp [hq, afterSweep, ho]
  · rw [processQueue_log]
    simp only [if_pos rfl]
    have hvs := mem_of_findVote hv
    exact (mem_logOf (snapshot store) outs i false (nodup_snapshot_ids hnd)).mpr
      ⟨v, mem_snapshot.mpr ⟨hvs.1, hq⟩, hvs.2, by rw [ho]; rfl⟩

theorem transient_failure_increments_and_persists_witness :
    findVote (processQueue true (fun _ => Outcome.transientFailure) [voteQ]).1 "v1"
        = some { voteQ with status := Status.failed, retries := voteQ.retries + 1 }
      ∧ ("v1", false) ∈ (processQueue true (fun _ => Outcome.transientFailure) [voteQ]).2 :=
  transient_failure_increments_and_persists (fun _ => Outcome.transientFailure)
    [voteQ] "v1" voteQ (by decide) (by decide) (by decide) rfl

/-- Claim C8: `castVote` with a fresh id adds exactly one new record, in
status `Queued` with `retries = 0`, whose signature is the opaque `sign`
applied to the concatenation of the id and the idempotency key. -/
theorem cast_creates_single_queued_record (sign : String → String)
    (i idk : String) (store : Store)
    (h : containsId store i = false) :
    castVote sign i idk store
      = store ++ [{ id := i, idempotencyKey := idk, status := Status.queued,
                    retries := 0, signature := sign (i ++ idk) }] := by
  simp [castVote, h]

theorem cast_creates_single_queued_record_witness :
    castVote (fun x => x) "v9" "k9" []
      = [] ++ [{ id := "v9", idempotencyKey := "k9", status := Status.queued,
                 retries := 0, signature := "v9k9" }] :=
  cast_creates_single_queued_record (fun x => x) "v9" "k9" [] (by decide)

/-- Claim C10: within one sweep the transport is invoked once per record
of the queued snapshot, in snapshot order (hence at most once per record,
since ids are unique), and only for records that were `queued` in the
store when the snapshot was taken; offline, it is invoked for none. -/
theorem sweep_attempts_exactly_snapshot (isOnline : Bool) (outs : Nat → Outcome)
    (store : Store) (hnd : (storeIds store).Nodup) :
    (processQueue isOnline outs store).2.map Prod.fst
        = (if isOnline then (snapshot store).map (fun v => v.id) else [])
      ∧ ((processQueue isOnline outs store).2.map Prod.fst).Nodup
      ∧ ∀ p ∈ (processQueue isOnline outs store).2,
          ∃ v ∈ store, v.id = p.1 ∧ v.status = Status.queued := by
  have hlog := processQueue_log isOnline outs store
  cases isOnline with
  | false =>
    rw [hlog]
    simp
  | true =>
    have hlog2 : (processQueue true outs store).2 = logOf outs (snapshot store) := by
      rw [hlog]
      rfl
    rw [hlog2]
    refine ⟨(logOf_map_fst (snapshot store) outs).trans (by rfl), ?_, ?_⟩
    · rw [logOf_map_fst]
      exact nodup_snapshot_ids hnd
    · intro p hp
      have : p.1 ∈ (logOf outs (snapshot store)).map Prod.fst :=
        List.mem_map.mpr ⟨p, hp, rfl⟩
      rw [logOf_map_fst] at this
      rcases List.mem_map.mp this with ⟨u, hu, hui⟩
      have hus := mem_snapshot.mp hu
      exact ⟨u, hus.1, hui, hus.2⟩

theorem sweep_attempts_exactly_snapshot_witness :
    (processQueue true (fun _ => Outcome.success) [voteQ]).2.map Prod.fst
        = (if true then (snapshot [voteQ]).map (fun v => v.id) else [])
      ∧ ((processQueue true (fun _ => Outcome.success) [voteQ]).2.map Prod.fst).Nodup :=
  ⟨(sweep_attempts_exactly_snapshot true (fun _ => Outcome.success) [voteQ] (by decide)).1,
   (sweep_attempts_exactly_snapshot true (fun _ => Outcome.success) [voteQ] (by decide)).2.1⟩

/-- Claim C4: across every operation (cast, toggle, sweep), a record is
removed from the store by that operation exactly when the operation made
a transport attempt for that record which reported success. -/
theorem removal_iff_successful_attempt (sign : String → String) (s : Sys) (op : Op)
    (i : String) (hnd : (storeIds s.store).Nodup) :
    (containsId s.store i = true ∧ containsId (step sign s op).1.store i = false)
      ↔ (i, true) ∈ (step sign s op).2 := by
  cases op with
  | cast j idk =>
    constructor
    · rintro ⟨hb, ha⟩
      exfalso
      rw [containsId_eq_isSome] at hb
      have heq := findVote_castVote_present sign j idk hb
      have ha2 : containsId (castVote sign j idk s.store) i = false := ha
      rw [containsId_eq_isSome, heq, hb] at ha2
      exact Bool.noConfusion ha2
    · intro hmem
      simp [step] at hmem
  | toggle =>
    constructor
    · rintro ⟨hb, ha⟩
      exfalso
      have ha2 : containsId s.store i = false := ha
      rw [hb] at ha2
      exact Bool.noConfusion ha2
    · intro hmem
      simp [step] at hmem
  | sweep outs =>
    have hchar := processQueue_find s.isOnline outs s.store hnd i
    constructor
    · rintro ⟨hb, ha⟩
      rw [containsId_eq_isSome] at hb
      cases hfv : findVote s.store i with
      | none => rw [hfv] at hb; exact absurd hb (by simp)
      | some v =>
        have ha2 : (findVote (processQueue s.isOnline outs s.store).1 i).isSome
            = false := by
          rw [← containsId_eq_isSome]
          exact ha
        rw [hchar, hfv] at ha2
        simp only at ha2
        by_cases hq : v.status = Status.queued
        · rw [if_pos hq] at ha2
          cases hAS : afterSweep s.isOnline (outs (idxOf i (snapshot s.store))) v with
          | some u => rw [hAS] at ha2; exact absurd ha2 (by simp)
          | none =>
            have hcond := afterSweep_eq_none_iff.mp hAS
            show (i, true) ∈ (processQueue s.isOnline outs s.store).2
            rw [processQueue_log, hcond.1]
            have hvs := mem_of_findVote hfv
            simpa using (mem_logOf (snapshot s.store) outs i true
              (nodup_snapshot_ids hnd)).mpr
              ⟨v, mem_snapshot.mpr ⟨hvs.1, hq⟩, hvs.2, by rw [hcond.2]; rfl⟩
        · rw [if_neg hq] at ha2
          exact absurd ha2 (by simp)
    · intro hmem
      have hm2 : (i, true) ∈ (processQueue s.isOnline outs s.store).2 := hmem
      cases hon : s.isOnline with
      | false =>
        rw [hon] at hm2
        rw [processQueue_log] at hm2
        exact absurd hm2 (by simp)
      | true =>
        rw [hon] at hm2 hchar
        rw [processQueue_log] at hm2
        have hm3 : (i, true) ∈ logOf outs (snapshot s.store) := by simpa using hm2
        rcases (mem_logOf (snapshot s.store) outs i true
            (nodup_snapshot_ids hnd)).mp hm3 with ⟨v, hvsnap, hvi, hbv⟩
        have hvs := mem_snapshot.mp hvsnap
        have hfv : findVote s.store i = some v :=
          hvi ▸ findVote_mem_of_nodup hnd hvs.1
        have ho : outs (idxOf i (snapshot s.store)) = Outcome.success :=
          of_decide_eq_true hbv.symm
        constructor
        · rw [containsId_eq_isSome, hfv]
          rfl
        · show containsId (processQueue s.isOnline outs s.store).1 i = false
          rw [hon, containsId_eq_isSome, hchar, hfv]
          simp [hvs.2, afterSweep, ho]

theorem removal_iff_successful_attempt_witness :
    (containsId [voteQ] "v1" = true
        ∧ containsId (step (fun x => x) { store := [voteQ], isOnline := true }
            (Op.sweep (fun _ => Outcome.success))).1.store "v1" = false)
      ↔ ("v1", true) ∈ (step (fun x => x) { store := [voteQ], isOnline := true }
            (Op.sweep (fun _ => Outcome.success))).2 :=
  removal_iff_successful_attempt (fun x => x)
    { store := [voteQ], isOnline := true } (Op.sweep (fun _ => Outcome.success))
    "v1" (by decide)

/-- Claim C7: for any record present in the store throughout an arbitrary
sequence of operations (casts, sweeps, online/offline toggles), its
`retries` field never decreases: its value at the start is at most its
value at the end. -/
theorem retryCount_monotone (sign : String → String) :
    ∀ (ops : List Op) (s : Sys) (i : String) (v v2 : Vote),
      (storeIds s.store).Nodup →
      (∀ k, k ≤ ops.length →
        containsId (run sign s (List.take k ops)).store i = true) →
      findVote s.store i = some v →
      findVote (run sign s ops).store i = some v2 →
      v.retries ≤ v2.retries := by
  intro ops
  induction ops with
  | nil =>
    intro s i v v2 _ _ hv hv2
    have hv2b : findVote s.store i = some v2 := hv2
    rw [hv] at hv2b
    injection hv2b with h
    rw [h]
  | cons op ops ih =>
    intro s i v v2 hnd hpres hv hv2
    have h1 : containsId (step sign s op).1.store i = true := by
      have h := hpres 1 (Nat.succ_le_succ (Nat.zero_le _))
      rw [List.take_succ_cons, List.take_zero] at h
      exact h
    rw [containsId_eq_isSome] at h1
    cases hw : findVote (step sign s op).1.store i with
    | none => rw [hw] at h1; exact absurd h1 (by simp)
    | some w =>
      have hmono := step_retries_mono op hnd hv hw
      have hnd1 := @nodup_step sign s op hnd
      have hpres1 : ∀ k, k ≤ ops.length →
          containsId (run sign (step sign s op).1 (List.take k ops)).store i
            = true := by
        intro k hk
        have h := hpres (k + 1) (Nat.succ_le_succ hk)
        rw [List.take_succ_cons] at h
        exact h
      have hv2b : findVote (run sign (step sign s op).1 ops).store i = some v2 := hv2
      exact Nat.le_trans hmono (ih (step sign s op).1 i w v2 hnd1 hpres1 hw hv2b)

theorem retryCount_monotone_witness :
    voteQ.retries ≤ (failedVote 1).retries :=
  retryCount_monotone (fun x => x) [Op.sweep (fun _ => Outcome.transientFailure)]
    { store := [voteQ], isOnline := true } "v1" voteQ (failedVote 1)
    (by decide) (by decide) (by decide) (by decide)

/-- Claim C9: a record that is `queued` when an offline sweep runs ends
that sweep still in the store, with status `Sending` and unchanged
`retries`, and the sweep performs no transport invocation; because every
sweep selects only `queued` records, no later operation sequence ever
changes it or attempts it again. -/
theorem offline_sweep_strands_queued_record (sign : String → String)
    (outs : Nat → Outcome) (s : Sys) (v : Vote) (ops : List Op)
    (hnd : (storeIds s.store).Nodup)
    (hv : findVote s.store v.id = some v)
    (hq : v.status = Status.queued)
    (hoff : s.isOnline = false) :
    findVote (step sign s (Op.sweep outs)).1.store v.id
        = some { v with status := Status.sending }
      ∧ (step sign s (Op.sweep outs)).2 = []
      ∧ findVote (run sign (step sign s (Op.sweep outs)).1 ops).store v.id
          = some { v with status := Status.sending }
      ∧ ∀ p ∈ runLog sign (step sign s (Op.sweep outs)).1 ops, p.1 ≠ v.id := by
  have hchar := processQueue_find s.isOnline outs s.store hnd v.id
  have hfind : findVote (step sign s (Op.sweep outs)).1.store v.id
      = some { v with status := Status.sending } := by
    show findVote (processQueue s.isOnline outs s.store).1 v.id = _
    rw [hchar, hv]
    simp [hq, hoff, afterSweep]
  have hlog0 : (step sign s (Op.sweep outs)).2 = [] := by
    show (processQueue s.isOnline outs s.store).2 = []
    rw [processQueue_log, hoff]
    rfl
  have hnd1 := @nodup_step sign s (Op.sweep outs) hnd
  have habs := @sending_absorbing sign v.id { v with status := Status.sending } ops
    (step sign s (Op.sweep outs)).1 hnd1 hfind rfl
  exact ⟨hfind, hlog0, habs.1, habs.2⟩

theorem offline_sweep_strands_queued_record_witness :
    findVote (step (fun x => x) { store := [voteQ], isOnline := false }
        (Op.sweep (fun _ => Outcome.success))).1.store "v1"
        = some { voteQ with status := Status.sending }
      ∧ (step (fun x => x) { store := [voteQ], isOnline := false }
          (Op.sweep (fun _ => Outcome.success))).2 = []
      ∧ findVote (run (fun x => x)
            (step (fun x => x) { store := [voteQ], isOnline := false }
              (Op.sweep (fun _ => Outcome.success))).1
            [Op.toggle, Op.sweep (fun _ => Outcome.success)]).store "v1"
          = some { voteQ with status := Status.sending } :=
  ⟨(offline_sweep_strands_queued_record (fun x => x) (fun _ => Outcome.success)
      { store := [voteQ], isOnline := false } voteQ
      [Op.toggle, Op.sweep (fun _ => Outcome.success)]
      (by decide) (by decide) (by decide) rfl).1,
   (offline_sweep_strands_queued_record (fun x => x) (fun _ => Outcome.success)
      { store := [voteQ], isOnline := false } voteQ
      [Op.toggle, Op.sweep (fun _ => Outcome.success)]
      (by decide) (by decide) (by decide) rfl).2.1,
   (offline_sweep_strands_queued_record (fun x => x) (fun _ => Outcome.success)
      { store := [voteQ], isOnline := false } voteQ
      [Op.toggle, Op.sweep (fun _ => Outcome.success)]
      (by decide) (by decide) (by decide) rfl).2.2.1⟩

end Voting
